import Mathlib

/-!
Verification of the PCAP streaming decoder in src/pcap_reader.c.

A byte stream is a `List Nat` (bytes; well formed streams hold values below
256, and every reader takes each byte modulo 256, exactly as a `uint8_t`
buffer would).  The host is little endian, so a `uint32_t` filled by `fread`
is the little endian assembly of four stream bytes.  All 32 bit fields are
`Nat` kept below `2 ^ 32` by construction; the one 64 bit computation
(timestamp canonicalization) is reduced modulo `2 ^ 64` as `uint64_t`
arithmetic is.
-/

namespace Pcap

/-- Byte access in a read buffer; decoders check lengths before reading, so
the default 0 for an out of range index is never semantically reached. -/
def byteAt (s : List Nat) (i : Nat) : Nat := s.getD i 0

/-- Little endian assembly of a 32 bit value from four bytes: the value a
little endian host sees in a `uint32_t` filled by `fread`. -/
def read32le (b0 b1 b2 b3 : Nat) : Nat :=
  b0 % 256 + b1 % 256 * 2 ^ 8 + b2 % 256 * 2 ^ 16 + b3 % 256 * 2 ^ 24

/-- Little endian assembly of a 16 bit value from two bytes. -/
def read16le (b0 b1 : Nat) : Nat := b0 % 256 + b1 % 256 * 2 ^ 8

/-- The 32 bit field starting at byte offset `off` of stream `s`. -/
def field32 (s : List Nat) (off : Nat) : Nat :=
  read32le (byteAt s off) (byteAt s (off + 1)) (byteAt s (off + 2)) (byteAt s (off + 3))

/-- The 16 bit field starting at byte offset `off` of stream `s`. -/
def field16 (s : List Nat) (off : Nat) : Nat :=
  read16le (byteAt s off) (byteAt s (off + 1))

/-- `swap32` from pcap_reader.c lines 28 to 33: byte order reversal of a
32 bit value by masks and shifts.  For arguments below `2 ^ 32` every
intermediate fits in 32 bits, so plain `Nat` operators mirror `uint32_t`. -/
def swap32 (value : Nat) : Nat :=
  ((value &&& 0xFF000000) >>> 24) |||
  ((value &&& 0x00FF0000) >>> 8) |||
  ((value &&& 0x0000FF00) <<< 8) |||
  ((value &&& 0x000000FF) <<< 24)

/-- Magic constants from pcap_reader.h. -/
def PCAP_MAGIC_NATIVE : Nat := 0xa1b2c3d4

def PCAP_MAGIC_SWAPPED : Nat := 0xd4c3b2a1

def PCAP_MAGIC_NANO_NATIVE : Nat := 0xa1b23c4d

def PCAP_MAGIC_NANO_SWAPPED : Nat := 0x4d3cb2a1

/-- `pcap_file_header_t` from pcap_reader.h (24 bytes on disk).  `thiszone`
is `int32_t` in C; it is informational only and kept as its raw 32 bit
pattern here. -/
structure pcap_file_header_t where
  magic_number : Nat
  version_major : Nat
  version_minor : Nat
  thiszone : Nat
  sigfigs : Nat
  snaplen : Nat
  network : Nat
deriving DecidableEq

/-- The struct fill performed by `fread(&state->file_header, 24, 1, file)`
on a little endian host: fields at offsets 0, 4, 6, 8, 12, 16, 20. -/
def parseFileHeader (s : List Nat) : pcap_file_header_t :=
  ⟨field32 s 0, field16 s 4, field16 s 6, field32 s 8, field32 s 12,
   field32 s 16, field32 s 20⟩

/-- Errors surfaced by `PcapReaderInit` via `duckdb_init_set_error`:
TruncatedHeader is the message at line 177 and UnsupportedMagic the one at
line 203 (carrying the offending magic for diagnostics). -/
inductive PcapError where
  | TruncatedHeader
  | UnsupportedMagic (magic : Nat)
deriving DecidableEq

/-- The decoding context negotiated from the file header: `needs_swap` and
`is_nanosecond` from pcap_reader.c lines 182 to 205, and the (already byte
swapped when needed) `snaplen` used as initial buffer size at line 208. -/
structure DecodingContext where
  needs_swap : Bool
  is_nanosecond : Bool
  snaplen : Nat
deriving DecidableEq

/-- `PcapReaderInit` at the stream level: read the 24 byte file header
(failing with TruncatedHeader when fewer bytes are available), dispatch on
the magic number, byte swapping `snaplen` for the two swapped magics, and
reject any other magic value.  Returns the context and the unread rest. -/
def PcapReaderInit (s : List Nat) : Except PcapError (DecodingContext × List Nat) :=
  if s.length < 24 then .error .TruncatedHeader
  else
    let hdr := parseFileHeader s
    let rest := s.drop 24
    if hdr.magic_number = PCAP_MAGIC_NATIVE then .ok (⟨false, false, hdr.snaplen⟩, rest)
    else if hdr.magic_number = PCAP_MAGIC_SWAPPED then
      .ok (⟨true, false, swap32 hdr.snaplen⟩, rest)
    else if hdr.magic_number = PCAP_MAGIC_NANO_NATIVE then
      .ok (⟨false, true, hdr.snaplen⟩, rest)
    else if hdr.magic_number = PCAP_MAGIC_NANO_SWAPPED then
      .ok (⟨true, true, swap32 hdr.snaplen⟩, rest)
    else .error (.UnsupportedMagic hdr.magic_number)

/-- One output row of the reader: the four columns produced by
`PcapReaderFunction` (timestamp_ns, original_len, capture_len, data). -/
structure PacketRecord where
  timestamp_ns : Nat
  original_len : Nat
  capture_len : Nat
  payload : List Nat
deriving DecidableEq

/-- A packet header field as used by the loop: byte swapped when the context
requires it (pcap_reader.c lines 253 to 258). -/
def cook (sw : Bool) (v : Nat) : Nat := if sw then swap32 v else v

/-- Timestamp canonicalization from pcap_reader.c lines 260 to 270, in
`uint64_t` arithmetic (no overflow check, wrap modulo `2 ^ 64`). -/
def tsNanos (nano : Bool) (sec frac : Nat) : Nat :=
  if nano then (sec * 1000000000 + frac) % 2 ^ 64
  else (sec * 1000000000 + frac * 1000) % 2 ^ 64

/-- One iteration of the `PcapReaderFunction` while loop, stripped of the
buffer bookkeeping (which cannot fail when allocation succeeds; the
buffered version is `decodeStep`).  `none` is every `break`: a short read
of the 16 byte packet header, or a short read of the payload. -/
def readRecord (ctx : DecodingContext) (s : List Nat) :
    Option (PacketRecord × List Nat) :=
  if s.length < 16 then none
  else
    let ts_sec := cook ctx.needs_swap (field32 s 0)
    let ts_usec := cook ctx.needs_swap (field32 s 4)
    let caplen := cook ctx.needs_swap (field32 s 8)
    let len := cook ctx.needs_swap (field32 s 12)
    let rest := s.drop 16
    if rest.length < caplen then none
    else
      some (⟨tsNanos ctx.is_nanosecond ts_sec ts_usec, len, caplen, rest.take caplen⟩,
            rest.drop caplen)

/-- Fuelled record iteration; each step consumes at least 16 bytes, so fuel
equal to the stream length always suffices (see `decodeAll`). -/
def decodeAllF (ctx : DecodingContext) : Nat → List Nat → List PacketRecord
  | 0, _ => []
  | fuel + 1, s =>
    match readRecord ctx s with
    | none => []
    | some (r, rest) => r :: decodeAllF ctx fuel rest

/-- Every record the reader produces from a stream (records accumulated
over all pulls, the batch boundary being observably irrelevant when no
allocation fails). -/
def decodeAll (ctx : DecodingContext) (s : List Nat) : List PacketRecord :=
  decodeAllF ctx s.length s

/-- The full pipeline: header negotiation, then record decoding.  An init
error aborts before any record is produced. -/
def decodePcap (s : List Nat) : Except PcapError (List PacketRecord) :=
  match PcapReaderInit s with
  | .error e => .error e
  | .ok (ctx, rest) => .ok (decodeAll ctx rest)

/-- Decoder state carried across loop iterations: the unread stream, the
reusable packet buffer (its length is `buffer_size`), and the allocation
oracle for `duckdb_malloc` at line 274: `none` means every allocation
succeeds, `some k` means k more allocations succeed and the next fails. -/
structure LoopState where
  stream : List Nat
  buffer : List Nat
  allocs : Option Nat
deriving DecidableEq

/-- Drawing one outcome from the allocation oracle: `none` means the malloc
returned NULL. -/
def allocTry : Option Nat → Option (Option Nat)
  | none => some none
  | some 0 => none
  | some (k + 1) => some (some k)

/-- The state right after `PcapReaderInit`: buffer pre allocated with
`snaplen` bytes (uninitialized memory modelled as zeros; it is always
overwritten before being read). -/
def initLoopState (ctx : DecodingContext) (s : List Nat) : LoopState :=
  ⟨s, List.replicate ctx.snaplen 0, none⟩

/-- Buffer growth from pcap_reader.c lines 273 to 281: when the captured
length exceeds the buffer size, allocate a replacement buffer of exactly
`caplen` bytes, releasing the old one (`none` when that malloc fails);
otherwise keep the buffer as it is. -/
def growBuffer (buffer : List Nat) (allocs : Option Nat) (caplen : Nat) :
    Option (List Nat × Option Nat) :=
  if buffer.length < caplen then
    (allocTry allocs).map fun a => (List.replicate caplen 0, a)
  else some (buffer, allocs)

/-- One iteration of the while loop of `PcapReaderFunction` (lines 244 to
297) with the payload buffer explicit: read and cook the 16 byte packet
header, grow the buffer by replacement when `caplen` exceeds its size
(break when that malloc fails), read the payload into the buffer prefix
(break on short read), and emit the row, whose blob is copied out of the
buffer. -/
def decodeStep (ctx : DecodingContext) (st : LoopState) :
    Option (PacketRecord × LoopState) :=
  if st.stream.length < 16 then none
  else
    let ts_sec := cook ctx.needs_swap (field32 st.stream 0)
    let ts_usec := cook ctx.needs_swap (field32 st.stream 4)
    let caplen := cook ctx.needs_swap (field32 st.stream 8)
    let len := cook ctx.needs_swap (field32 st.stream 12)
    let rest := st.stream.drop 16
    match growBuffer st.buffer st.allocs caplen with
    | none => none
    | some (buf0, allocs1) =>
      if rest.length < caplen then none
      else
        let buf1 := rest.take caplen ++ buf0.drop caplen
        some (⟨tsNanos ctx.is_nanosecond ts_sec ts_usec, len, caplen, buf1.take caplen⟩,
              ⟨rest.drop caplen, buf1, allocs1⟩)

/-- One pull: up to `max_rows` (`duckdb_vector_size()`, 2048) iterations,
stopping early at the first break; returns the batch handed to the sink
and the state left for the next pull. -/
def runPull (ctx : DecodingContext) : Nat → LoopState → List PacketRecord × LoopState
  | 0, st => ([], st)
  | max_rows + 1, st =>
    match decodeStep ctx st with
    | none => ([], st)
    | some (r, st1) =>
      let (rs, st2) := runPull ctx max_rows st1
      (r :: rs, st2)

/-- The four bytes of `v` in little endian file order. -/
def w32le (v : Nat) : List Nat :=
  [v % 256, v / 2 ^ 8 % 256, v / 2 ^ 16 % 256, v / 2 ^ 24 % 256]

/-- The four bytes of `v` byte reversed (big endian file order). -/
def w32be (v : Nat) : List Nat := (w32le v).reverse

/-- A 32 bit field as stored by a file of the given endianness. -/
def w32 (sw : Bool) (v : Nat) : List Nat := if sw then w32be v else w32le v

/-- The two bytes of `v` in little endian file order. -/
def w16le (v : Nat) : List Nat := [v % 256, v / 2 ^ 8 % 256]

/-- A 16 bit field as stored by a file of the given endianness. -/
def w16 (sw : Bool) (v : Nat) : List Nat := if sw then (w16le v).reverse else w16le v

/-- The magic constant a file of the given precision carries (the swapped
on disk variants arise from writing it with reversed bytes). -/
def magicConst (nano : Bool) : Nat :=
  if nano then PCAP_MAGIC_NANO_NATIVE else PCAP_MAGIC_NATIVE

/-- A 24 byte capture header: magic, version major and minor, thiszone,
sigfigs, snaplen, network, each field byte reversed when `sw` is set. -/
def mkCapture (sw nano : Bool) (snap vmaj vmin tz sig net : Nat) : List Nat :=
  w32 sw (magicConst nano) ++ w16 sw vmaj ++ w16 sw vmin ++ w32 sw tz ++
  w32 sw sig ++ w32 sw snap ++ w32 sw net

/-- A synthetic record: the four packet header fields plus the payload. -/
structure RecSpec where
  sec : Nat
  frac : Nat
  caplen : Nat
  len : Nat
  payload : List Nat
deriving DecidableEq

/-- Well formed synthetic record: fields fit in 32 bits and the payload has
exactly `caplen` bytes. -/
def RecSpec.wf (r : RecSpec) : Prop :=
  r.sec < 2 ^ 32 ∧ r.frac < 2 ^ 32 ∧ r.caplen < 2 ^ 32 ∧ r.len < 2 ^ 32 ∧
  r.payload.length = r.caplen

instance (r : RecSpec) : Decidable r.wf := by
  unfold RecSpec.wf; infer_instance

/-- The on disk form of one record for a file of the given endianness:
16 byte packet header (ts_sec, ts_usec, caplen, len) then the payload. -/
def encodeRec (sw : Bool) (r : RecSpec) : List Nat :=
  w32 sw r.sec ++ w32 sw r.frac ++ w32 sw r.caplen ++ w32 sw r.len ++ r.payload

/-- The on disk form of a record sequence. -/
def encodeRecs (sw : Bool) : List RecSpec → List Nat
  | [] => []
  | r :: rs => encodeRec sw r ++ encodeRecs sw rs

/-- The row the reader must produce for a synthetic record. -/
def mkRecord (nano : Bool) (r : RecSpec) : PacketRecord :=
  ⟨tsNanos nano r.sec r.frac, r.len, r.caplen, r.payload⟩

/-- A trailing fragment that truncates the stream: either a partial packet
header (fewer than 16 bytes) or a packet header whose declared captured
length exceeds the bytes that follow. -/
def truncatedTail (ctx : DecodingContext) (t : List Nat) : Prop :=
  t.length < 16 ∨
  (16 ≤ t.length ∧ t.length - 16 < cook ctx.needs_swap (field32 t 8))

instance (ctx : DecodingContext) (t : List Nat) : Decidable (truncatedTail ctx t) := by
  unfold truncatedTail; infer_instance

/-- C `strncmp(s, t, n) == 0` on NUL free byte lists standing for C strings
(position at or past the end of a list reads the terminating NUL). -/
def strncmpEqZero : List Nat → List Nat → Nat → Bool
  | _, _, 0 => true
  | s, t, n + 1 =>
    let a := s.headD 0
    let b := t.headD 0
    if a = b then (if a = 0 then true else strncmpEqZero s.tail t.tail n)
    else false

/-- The bytes of the C literal for the stdin device path. -/
def devStdinBytes : List Nat := [47, 100, 101, 118, 47, 115, 116, 100, 105, 110]

/-- The bytes of the C literal for the dash alias of stdin. -/
def dashBytes : List Nat := [45]

/-- `is_stdin` from PcapReaderBind line 100: both strncmp bounds cover the
terminating NUL of the literal, so both tests are full string equality. -/
def pcapIsStdin (filename : List Nat) : Bool :=
  strncmpEqZero filename devStdinBytes 11 || strncmpEqZero filename dashBytes 2

/-- `PcapReaderInitDataFree` lines 50 to 52: the stream handle is fclosed
exactly when the reader is not backed by stdin. -/
def initDataFreeClosesStream (is_stdin : Bool) : Bool := ! is_stdin

/-- A 17 byte stream holding one complete microsecond record: header
(sec 0, usec 0, caplen 1, len 1) plus one payload byte. -/
def cxStream : List Nat := [0, 0, 0, 0, 0, 0, 0, 0, 1, 0, 0, 0, 1, 0, 0, 0, 171]


/-! ### Arithmetic characterization of swap32 -/

/-- Masking with a byte mask shifted to position `n` extracts byte `n / 8`. -/
theorem and_byte_mask (x n : Nat) :
    x &&& (2 ^ 8 - 1) <<< n = 2 ^ n * (x / 2 ^ n % 2 ^ 8) := by
  apply Nat.eq_of_testBit_eq
  intro i
  rw [Nat.testBit_and, Nat.testBit_shiftLeft, Nat.testBit_two_pow_sub_one,
    Nat.testBit_mul_pow_two, Nat.testBit_mod_two_pow, ← Nat.shiftRight_eq_div_pow,
    Nat.testBit_shiftRight]
  rcases Nat.lt_or_ge i n with h | h
  · have h1 : ¬ n ≤ i := by omega
    simp [h1]
  · have h2 : n + (i - n) = i := by omega
    rw [h2]
    simp [h, Bool.and_comm, Bool.and_left_comm]

/-- swap32 as plain arithmetic on the four bytes of a 32 bit value. -/
theorem swap32_spec (v : Nat) (hv : v < 2 ^ 32) :
    swap32 v = v % 2 ^ 8 * 2 ^ 24 + v / 2 ^ 8 % 2 ^ 8 * 2 ^ 16 +
      v / 2 ^ 16 % 2 ^ 8 * 2 ^ 8 + v / 2 ^ 24 := by
  have e1 : v &&& 0xFF000000 = 2 ^ 24 * (v / 2 ^ 24 % 2 ^ 8) := by
    rw [show (0xFF000000 : Nat) = (2 ^ 8 - 1) <<< 24 by decide]
    exact and_byte_mask v 24
  have e2 : v &&& 0x00FF0000 = 2 ^ 16 * (v / 2 ^ 16 % 2 ^ 8) := by
    rw [show (0x00FF0000 : Nat) = (2 ^ 8 - 1) <<< 16 by decide]
    exact and_byte_mask v 16
  have e3 : v &&& 0x0000FF00 = 2 ^ 8 * (v / 2 ^ 8 % 2 ^ 8) := by
    rw [show (0x0000FF00 : Nat) = (2 ^ 8 - 1) <<< 8 by decide]
    exact and_byte_mask v 8
  have e4 : v &&& 0x000000FF = v % 2 ^ 8 := by
    rw [show (0x000000FF : Nat) = 2 ^ 8 - 1 by decide]
    exact Nat.and_pow_two_sub_one_eq_mod v 8
  unfold swap32
  rw [e1, e2, e3, e4, Nat.shiftRight_eq_div_pow, Nat.shiftRight_eq_div_pow,
    Nat.shiftLeft_eq, Nat.shiftLeft_eq]
  have r1 : 2 ^ 24 * (v / 2 ^ 24 % 2 ^ 8) / 2 ^ 24 = v / 2 ^ 24 % 2 ^ 8 := by omega
  have r2 : 2 ^ 16 * (v / 2 ^ 16 % 2 ^ 8) / 2 ^ 8 = 2 ^ 8 * (v / 2 ^ 16 % 2 ^ 8) := by omega
  have r3 : 2 ^ 8 * (v / 2 ^ 8 % 2 ^ 8) * 2 ^ 8 = 2 ^ 16 * (v / 2 ^ 8 % 2 ^ 8) := by ring
  have r4 : v % 2 ^ 8 * 2 ^ 24 = 2 ^ 24 * (v % 2 ^ 8) := by ring
  rw [r1, r2, r3, r4]
  have hA : v / 2 ^ 24 % 2 ^ 8 < 2 ^ 8 := Nat.mod_lt _ (by norm_num)
  have hB : v / 2 ^ 16 % 2 ^ 8 < 2 ^ 8 := Nat.mod_lt _ (by norm_num)
  have hC : v / 2 ^ 8 % 2 ^ 8 < 2 ^ 8 := Nat.mod_lt _ (by norm_num)
  have o1 : v / 2 ^ 24 % 2 ^ 8 ||| 2 ^ 8 * (v / 2 ^ 16 % 2 ^ 8) =
      2 ^ 8 * (v / 2 ^ 16 % 2 ^ 8) + v / 2 ^ 24 % 2 ^ 8 := by
    rw [Nat.or_comm]
    exact (Nat.mul_add_lt_is_or hA _).symm
  rw [o1]
  have o2 : 2 ^ 8 * (v / 2 ^ 16 % 2 ^ 8) + v / 2 ^ 24 % 2 ^ 8 ||| 2 ^ 16 * (v / 2 ^ 8 % 2 ^ 8) =
      2 ^ 16 * (v / 2 ^ 8 % 2 ^ 8) + (2 ^ 8 * (v / 2 ^ 16 % 2 ^ 8) + v / 2 ^ 24 % 2 ^ 8) := by
    rw [Nat.or_comm]
    exact (Nat.mul_add_lt_is_or (by omega) _).symm
  rw [o2]
  have o3 : 2 ^ 16 * (v / 2 ^ 8 % 2 ^ 8) + (2 ^ 8 * (v / 2 ^ 16 % 2 ^ 8) + v / 2 ^ 24 % 2 ^ 8) |||
      2 ^ 24 * (v % 2 ^ 8) =
      2 ^ 24 * (v % 2 ^ 8) +
        (2 ^ 16 * (v / 2 ^ 8 % 2 ^ 8) + (2 ^ 8 * (v / 2 ^ 16 % 2 ^ 8) + v / 2 ^ 24 % 2 ^ 8)) := by
    rw [Nat.or_comm]
    exact (Nat.mul_add_lt_is_or (by omega) _).symm
  rw [o3]
  omega

/-- swap32 of a little endian read is the read of the reversed bytes. -/
theorem swap32_read32le (b0 b1 b2 b3 : Nat) :
    swap32 (read32le b0 b1 b2 b3) = read32le b3 b2 b1 b0 := by
  have h : read32le b0 b1 b2 b3 < 2 ^ 32 := by unfold read32le; omega
  rw [swap32_spec _ h]
  unfold read32le
  omega


/-! ### Reading back encoded fields -/

theorem w32_length (sw : Bool) (v : Nat) : (w32 sw v).length = 4 := by
  cases sw <;> rfl

theorem w16_length (sw : Bool) (v : Nat) : (w16 sw v).length = 2 := by
  cases sw <;> rfl

/-- Reading and cooking a 32 bit field written at the head of the stream in
the matching endianness round trips. -/
theorem cook_w32_at0 (sw : Bool) (v : Nat) (hv : v < 2 ^ 32) (t : List Nat) :
    cook sw (field32 (w32 sw v ++ t) 0) = v := by
  cases sw
  · have h : field32 (w32 false v ++ t) 0 =
        read32le (v % 256) (v / 2 ^ 8 % 256) (v / 2 ^ 16 % 256) (v / 2 ^ 24 % 256) := rfl
    rw [h]
    unfold cook read32le
    simp only [Bool.false_eq_true, if_false]
    omega
  · have h : field32 (w32 true v ++ t) 0 =
        read32le (v / 2 ^ 24 % 256) (v / 2 ^ 16 % 256) (v / 2 ^ 8 % 256) (v % 256) := rfl
    rw [h]
    unfold cook
    simp only [if_true]
    rw [swap32_read32le]
    unfold read32le
    omega

theorem field32_w32_4 (sw : Bool) (v : Nat) (t : List Nat) :
    field32 (w32 sw v ++ t) 4 = field32 t 0 := by cases sw <;> rfl

theorem field32_w32_8 (sw : Bool) (v : Nat) (t : List Nat) :
    field32 (w32 sw v ++ t) 8 = field32 t 4 := by cases sw <;> rfl

theorem field32_w32_12 (sw : Bool) (v : Nat) (t : List Nat) :
    field32 (w32 sw v ++ t) 12 = field32 t 8 := by cases sw <;> rfl

theorem field32_w32_16 (sw : Bool) (v : Nat) (t : List Nat) :
    field32 (w32 sw v ++ t) 16 = field32 t 12 := by cases sw <;> rfl

theorem field32_w16_12 (sw : Bool) (v : Nat) (t : List Nat) :
    field32 (w16 sw v ++ t) 12 = field32 t 10 := by cases sw <;> rfl

theorem field32_w16_10 (sw : Bool) (v : Nat) (t : List Nat) :
    field32 (w16 sw v ++ t) 10 = field32 t 8 := by cases sw <;> rfl

theorem drop4_w32 (sw : Bool) (v : Nat) (t : List Nat) :
    (w32 sw v ++ t).drop 4 = t := by cases sw <;> rfl

theorem drop8_w32 (sw : Bool) (v : Nat) (t : List Nat) :
    (w32 sw v ++ t).drop 8 = t.drop 4 := by cases sw <;> rfl

theorem drop12_w32 (sw : Bool) (v : Nat) (t : List Nat) :
    (w32 sw v ++ t).drop 12 = t.drop 8 := by cases sw <;> rfl

theorem drop16_w32 (sw : Bool) (v : Nat) (t : List Nat) :
    (w32 sw v ++ t).drop 16 = t.drop 12 := by cases sw <;> rfl

theorem drop24_w32 (sw : Bool) (v : Nat) (t : List Nat) :
    (w32 sw v ++ t).drop 24 = t.drop 20 := by cases sw <;> rfl

theorem drop20_w16 (sw : Bool) (v : Nat) (t : List Nat) :
    (w16 sw v ++ t).drop 20 = t.drop 18 := by cases sw <;> rfl

theorem drop18_w16 (sw : Bool) (v : Nat) (t : List Nat) :
    (w16 sw v ++ t).drop 18 = t.drop 16 := by cases sw <;> rfl

/-- Decoding one encoded record from the head of a stream yields exactly the
encoded row and leaves the rest of the stream untouched. -/
theorem readRecord_encodeRec (ctx : DecodingContext) (r : RecSpec) (h : r.wf)
    (t : List Nat) :
    readRecord ctx (encodeRec ctx.needs_swap r ++ t) =
      some (mkRecord ctx.is_nanosecond r, t) := by
  obtain ⟨hs, hf, hc, hl, hp⟩ := h
  have hassoc : encodeRec ctx.needs_swap r ++ t =
      w32 ctx.needs_swap r.sec ++ (w32 ctx.needs_swap r.frac ++
        (w32 ctx.needs_swap r.caplen ++ (w32 ctx.needs_swap r.len ++ (r.payload ++ t)))) := by
    simp [encodeRec, List.append_assoc]
  rw [hassoc]
  set s := w32 ctx.needs_swap r.sec ++ (w32 ctx.needs_swap r.frac ++
    (w32 ctx.needs_swap r.caplen ++ (w32 ctx.needs_swap r.len ++ (r.payload ++ t)))) with hsdef
  have hlen : s.length = 16 + (r.caplen + t.length) := by
    simp [hsdef, w32_length, hp]
    omega
  have f0 : cook ctx.needs_swap (field32 s 0) = r.sec := by
    rw [hsdef]
    exact cook_w32_at0 _ _ hs _
  have f4 : cook ctx.needs_swap (field32 s 4) = r.frac := by
    rw [hsdef, field32_w32_4]
    exact cook_w32_at0 _ _ hf _
  have f8 : cook ctx.needs_swap (field32 s 8) = r.caplen := by
    rw [hsdef, field32_w32_8, field32_w32_4]
    exact cook_w32_at0 _ _ hc _
  have f12 : cook ctx.needs_swap (field32 s 12) = r.len := by
    rw [hsdef, field32_w32_12, field32_w32_8, field32_w32_4]
    exact cook_w32_at0 _ _ hl _
  have hdrop : s.drop 16 = r.payload ++ t := by
    rw [hsdef, drop16_w32, drop12_w32, drop8_w32, drop4_w32]
  simp only [readRecord]
  rw [if_neg (by omega)]
  rw [f0, f4, f8, f12, hdrop]
  rw [if_neg (by simp; omega)]
  rw [List.take_left' hp, List.drop_left' hp]
  rfl


/-! ### Header negotiation on encoded capture headers -/

theorem w32_false (v : Nat) : w32 false v = w32le v := rfl

theorem w32_true (v : Nat) : w32 true v = w32be v := rfl

theorem field32_w32le_at0 (v : Nat) (t : List Nat) :
    field32 (w32le v ++ t) 0 =
      read32le (v % 256) (v / 2 ^ 8 % 256) (v / 2 ^ 16 % 256) (v / 2 ^ 24 % 256) := rfl

theorem field32_w32be_at0 (v : Nat) (t : List Nat) :
    field32 (w32be v ++ t) 0 =
      read32le (v / 2 ^ 24 % 256) (v / 2 ^ 16 % 256) (v / 2 ^ 8 % 256) (v % 256) := rfl

/-- Negotiation on a well formed synthetic capture header: succeeds with
exactly the endianness and precision the header was encoded with, and the
snaplen round trips (byte swapped back when the file is swapped). -/
theorem PcapReaderInit_mkCapture (sw nano : Bool) (snap vmaj vmin tz sig net : Nat)
    (hsnap : snap < 2 ^ 32) (body : List Nat) :
    PcapReaderInit (mkCapture sw nano snap vmaj vmin tz sig net ++ body) =
      .ok (⟨sw, nano, snap⟩, body) := by
  have hassoc : mkCapture sw nano snap vmaj vmin tz sig net ++ body =
      w32 sw (magicConst nano) ++ (w16 sw vmaj ++ (w16 sw vmin ++ (w32 sw tz ++
        (w32 sw sig ++ (w32 sw snap ++ (w32 sw net ++ body)))))) := by
    simp [mkCapture, List.append_assoc]
  rw [hassoc]
  set s := w32 sw (magicConst nano) ++ (w16 sw vmaj ++ (w16 sw vmin ++ (w32 sw tz ++
    (w32 sw sig ++ (w32 sw snap ++ (w32 sw net ++ body)))))) with hsdef
  have hlen : s.length = 24 + body.length := by
    simp [hsdef, w32_length, w16_length]
    omega
  have hdrop : s.drop 24 = body := by
    rw [hsdef, drop24_w32, drop20_w16, drop18_w16, drop16_w32, drop12_w32, drop8_w32,
      drop4_w32]
  have hsnapf : cook sw (field32 s 16) = snap := by
    rw [hsdef, field32_w32_16, field32_w16_12, field32_w16_10, field32_w32_8, field32_w32_4]
    exact cook_w32_at0 _ _ hsnap _
  simp only [PcapReaderInit]
  rw [if_neg (by omega)]
  simp only [parseFileHeader]
  rw [hdrop]
  cases sw <;> cases nano
  · have hm : field32 s 0 = PCAP_MAGIC_NATIVE := by
      rw [hsdef]; simp only [w32_false]; rw [field32_w32le_at0]; decide
    rw [hm]
    simp only [cook, Bool.false_eq_true, if_false] at hsnapf
    rw [hsnapf]
    norm_num [PCAP_MAGIC_NATIVE, PCAP_MAGIC_SWAPPED, PCAP_MAGIC_NANO_NATIVE,
      PCAP_MAGIC_NANO_SWAPPED]
  · have hm : field32 s 0 = PCAP_MAGIC_NANO_NATIVE := by
      rw [hsdef]; simp only [w32_false]; rw [field32_w32le_at0]; decide
    rw [hm]
    simp only [cook, Bool.false_eq_true, if_false] at hsnapf
    rw [hsnapf]
    norm_num [PCAP_MAGIC_NATIVE, PCAP_MAGIC_SWAPPED, PCAP_MAGIC_NANO_NATIVE,
      PCAP_MAGIC_NANO_SWAPPED]
  · have hm : field32 s 0 = PCAP_MAGIC_SWAPPED := by
      rw [hsdef]; simp only [w32_true]; rw [field32_w32be_at0]; decide
    rw [hm]
    simp only [cook, if_true] at hsnapf
    rw [hsnapf]
    norm_num [PCAP_MAGIC_NATIVE, PCAP_MAGIC_SWAPPED, PCAP_MAGIC_NANO_NATIVE,
      PCAP_MAGIC_NANO_SWAPPED]
  · have hm : field32 s 0 = PCAP_MAGIC_NANO_SWAPPED := by
      rw [hsdef]; simp only [w32_true]; rw [field32_w32be_at0]; decide
    rw [hm]
    simp only [cook, if_true] at hsnapf
    rw [hsnapf]
    norm_num [PCAP_MAGIC_NATIVE, PCAP_MAGIC_SWAPPED, PCAP_MAGIC_NANO_NATIVE,
      PCAP_MAGIC_NANO_SWAPPED]

/-! ### The record iteration -/

/-- A produced record consumed at least the 16 header bytes. -/
theorem readRecord_rest_length (ctx : DecodingContext) (s : List Nat) (r : PacketRecord)
    (rest : List Nat) (h : readRecord ctx s = some (r, rest)) :
    rest.length + 16 ≤ s.length := by
  simp only [readRecord] at h
  split_ifs at h with h1 h2
  rw [Option.some.injEq, Prod.mk.injEq] at h
  have h4 := h.2
  rw [← h4]
  simp only [List.length_drop]
  omega

theorem decodeAllF_stable (ctx : DecodingContext) :
    ∀ (f g : Nat) (s : List Nat), s.length ≤ f → s.length ≤ g →
      decodeAllF ctx f s = decodeAllF ctx g s := by
  intro f
  induction f with
  | zero =>
    intro g s hf hg
    have hnil : s = [] := List.eq_nil_of_length_eq_zero (by omega)
    subst hnil
    cases g with
    | zero => rfl
    | succ g => simp [decodeAllF, readRecord]
  | succ f ih =>
    intro g s hf hg
    cases g with
    | zero =>
      have hnil : s = [] := List.eq_nil_of_length_eq_zero (by omega)
      subst hnil
      simp [decodeAllF, readRecord]
    | succ g =>
      simp only [decodeAllF]
      cases hr : readRecord ctx s with
      | none => rfl
      | some p =>
        obtain ⟨r, rest⟩ := p
        have hrest := readRecord_rest_length ctx s r rest hr
        exact congrArg (r :: ·) (ih g rest (by omega) (by omega))

/-- Unfolding decodeAll when no record can be read. -/
theorem decodeAll_none (ctx : DecodingContext) (s : List Nat)
    (h : readRecord ctx s = none) : decodeAll ctx s = [] := by
  unfold decodeAll
  cases hl : s.length with
  | zero => rfl
  | succ n =>
    simp only [decodeAllF]
    rw [h]

/-- Unfolding decodeAll when a record is read. -/
theorem decodeAll_some (ctx : DecodingContext) (s : List Nat) (r : PacketRecord)
    (rest : List Nat) (h : readRecord ctx s = some (r, rest)) :
    decodeAll ctx s = r :: decodeAll ctx rest := by
  have hrest := readRecord_rest_length ctx s r rest h
  unfold decodeAll
  obtain ⟨n, hn⟩ : ∃ n, s.length = n + 1 := ⟨s.length - 1, by omega⟩
  rw [hn]
  simp only [decodeAllF]
  rw [h]
  exact congrArg (r :: ·) (decodeAllF_stable ctx n rest.length rest (by omega) (by omega))

/-- The empty stream decodes to nothing. -/
theorem readRecord_nil (ctx : DecodingContext) : readRecord ctx [] = none := by
  simp [readRecord]

/-- A truncated trailing fragment produces no record. -/
theorem readRecord_truncatedTail (ctx : DecodingContext) (t : List Nat)
    (h : truncatedTail ctx t) : readRecord ctx t = none := by
  simp only [readRecord]
  rcases h with h | ⟨h1, h2⟩
  · rw [if_pos h]
  · rw [if_neg (by omega)]
    rw [if_pos (by simp only [List.length_drop]; omega)]

/-- Decoding an encoded record sequence followed by anything: the records
come out one by one, then decoding continues on the remainder. -/
theorem decodeAll_encodeRecs (ctx : DecodingContext) (rs : List RecSpec)
    (h : ∀ r ∈ rs, r.wf) (t : List Nat) :
    decodeAll ctx (encodeRecs ctx.needs_swap rs ++ t) =
      rs.map (mkRecord ctx.is_nanosecond) ++ decodeAll ctx t := by
  induction rs with
  | nil => simp [encodeRecs]
  | cons r rs ih =>
    have hr : r.wf := h r (by simp)
    have hrs : ∀ x ∈ rs, x.wf := fun x hx => h x (by simp [hx])
    rw [show encodeRecs ctx.needs_swap (r :: rs) =
          encodeRec ctx.needs_swap r ++ encodeRecs ctx.needs_swap rs from rfl,
      List.append_assoc,
      decodeAll_some ctx _ _ _ (readRecord_encodeRec ctx r hr _), ih hrs]
    simp


/-! ### The buffered loop body -/

/-- With a never failing allocation oracle, growth always succeeds: the
buffer is replaced by a fresh `caplen` sized one exactly when it was too
small. -/
theorem growBuffer_none_oracle (buffer : List Nat) (caplen : Nat) :
    growBuffer buffer none caplen =
      some (if buffer.length < caplen then List.replicate caplen 0 else buffer, none) := by
  unfold growBuffer allocTry
  split <;> simp

/-- A successful growth yields a buffer of size `max` of the old size and
the captured length. -/
theorem growBuffer_length (buffer buf0 : List Nat) (allocs allocs1 : Option Nat)
    (caplen : Nat) (h : growBuffer buffer allocs caplen = some (buf0, allocs1)) :
    buf0.length = max buffer.length caplen ∧ caplen ≤ buf0.length := by
  unfold growBuffer at h
  split at h
  · cases allocs with
    | none =>
      simp only [allocTry, Option.map_some', Option.some.injEq, Prod.mk.injEq] at h
      obtain ⟨h2, -⟩ := h
      subst h2
      simp only [List.length_replicate]
      omega
    | some k =>
      cases k with
      | zero => simp [allocTry] at h
      | succ k =>
        simp only [allocTry, Option.map_some', Option.some.injEq, Prod.mk.injEq] at h
        obtain ⟨h2, -⟩ := h
        subst h2
        simp only [List.length_replicate]
        omega
  · simp only [Option.some.injEq, Prod.mk.injEq] at h
    obtain ⟨h2, -⟩ := h
    subst h2
    omega

/-- What one successful loop iteration guarantees: the captured length is
the cooked caplen field, the buffer never shrinks and grows exactly to the
captured length when needed, the emitted payload is exactly the payload
bytes of the stream, and the stream advances past them. -/
theorem decodeStep_spec (ctx : DecodingContext) (st : LoopState) (r : PacketRecord)
    (st' : LoopState) (h : decodeStep ctx st = some (r, st')) :
    r.capture_len = cook ctx.needs_swap (field32 st.stream 8) ∧
    st'.buffer.length = max st.buffer.length r.capture_len ∧
    r.payload = (st.stream.drop 16).take r.capture_len ∧
    st'.stream = (st.stream.drop 16).drop r.capture_len := by
  simp only [decodeStep] at h
  split at h
  · simp at h
  · split at h
    · simp at h
    · next buf0 allocs1 heq =>
      split at h
      · simp at h
      · next hfit =>
        rw [Option.some.injEq, Prod.mk.injEq] at h
        obtain ⟨hgrow1, hgrow2⟩ := growBuffer_length _ _ _ _ _ heq
        obtain ⟨hr, hst⟩ := h
        subst hr
        subst hst
        simp only [List.length_drop] at hfit
        refine ⟨rfl, ?_, ?_, rfl⟩
        · simp only [List.length_append, List.length_take, List.length_drop,
            List.length_drop]
          omega
        · exact List.take_left' (by simp; omega)


/-- strncmp against a NUL free literal with a bound covering its NUL is full
string equality. -/
theorem strncmpEqZero_full (t : List Nat) (ht : ∀ b ∈ t, b ≠ 0) :
    ∀ (f : List Nat) (n : Nat), (∀ b ∈ f, b ≠ 0) → t.length < n →
      (strncmpEqZero f t n = true ↔ f = t) := by
  induction t with
  | nil =>
    intro f n hf hn
    obtain ⟨m, rfl⟩ : ∃ m, n = m + 1 := ⟨n - 1, by omega⟩
    cases f with
    | nil => simp [strncmpEqZero]
    | cons a f =>
      have ha : a ≠ 0 := hf a (by simp)
      simp [strncmpEqZero, ha]
  | cons c t ih =>
    intro f n hf hn
    obtain ⟨m, rfl⟩ : ∃ m, n = m + 1 := ⟨n - 1, by omega⟩
    have hc : c ≠ 0 := ht c (by simp)
    have ht2 : ∀ b ∈ t, b ≠ 0 := fun b hb => ht b (by simp [hb])
    cases f with
    | nil =>
      simp only [strncmpEqZero, List.headD_nil, List.headD_cons]
      rw [if_neg (fun h => hc h.symm)]
      simp
    | cons a f =>
      have ha : a ≠ 0 := hf a (by simp)
      have hf2 : ∀ b ∈ f, b ≠ 0 := fun b hb => hf b (by simp [hb])
      by_cases hac : a = c
      · subst hac
        simp only [strncmpEqZero, List.headD_cons, if_pos rfl, if_neg ha, List.tail_cons]
        rw [if_pos trivial, ih ht2 f m hf2 (by simp only [List.length_cons] at hn; omega)]
        simp
      · simp [strncmpEqZero, hac]


/-! ### Claim theorems -/

/-- Claim C9: a stream shorter than the 24 byte capture header block fails
negotiation with TruncatedHeader, before any record is decoded; header time
truncation is a hard failure. -/
theorem claim_truncated_header (s : List Nat) (h : s.length < 24) :
    decodePcap s = .error .TruncatedHeader := by
  simp [decodePcap, PcapReaderInit, h]

theorem claim_truncated_header_witness :
    ([] : List Nat).length < 24 ∧ decodePcap [] = .error .TruncatedHeader :=
  ⟨by decide, claim_truncated_header [] (by decide)⟩

/-- Claim C1: on any stream carrying the full 24 byte capture header,
negotiation selects (needs_byte_swap false, microsecond) for magic
0xa1b2c3d4, (true, microsecond) for 0xd4c3b2a1, (false, nanosecond) for
0xa1b23c4d, (true, nanosecond) for 0x4d3cb2a1, and any other magic value
fails with UnsupportedMagic carrying that value, producing no records. -/
theorem claim_magic_negotiation (s : List Nat) (h : 24 ≤ s.length) :
    (field32 s 0 = 0xa1b2c3d4 →
      ∃ snap, PcapReaderInit s = .ok (⟨false, false, snap⟩, s.drop 24)) ∧
    (field32 s 0 = 0xd4c3b2a1 →
      ∃ snap, PcapReaderInit s = .ok (⟨true, false, snap⟩, s.drop 24)) ∧
    (field32 s 0 = 0xa1b23c4d →
      ∃ snap, PcapReaderInit s = .ok (⟨false, true, snap⟩, s.drop 24)) ∧
    (field32 s 0 = 0x4d3cb2a1 →
      ∃ snap, PcapReaderInit s = .ok (⟨true, true, snap⟩, s.drop 24)) ∧
    (field32 s 0 ≠ 0xa1b2c3d4 → field32 s 0 ≠ 0xd4c3b2a1 → field32 s 0 ≠ 0xa1b23c4d →
      field32 s 0 ≠ 0x4d3cb2a1 →
      decodePcap s = .error (.UnsupportedMagic (field32 s 0))) := by
  have hni : ¬ s.length < 24 := by omega
  refine ⟨fun h1 => ⟨field32 s 16, ?_⟩, fun h1 => ⟨swap32 (field32 s 16), ?_⟩,
    fun h1 => ⟨field32 s 16, ?_⟩, fun h1 => ⟨swap32 (field32 s 16), ?_⟩,
    fun h1 h2 h3 h4 => ?_⟩
  · simp only [PcapReaderInit, parseFileHeader, PCAP_MAGIC_NATIVE, PCAP_MAGIC_SWAPPED,
      PCAP_MAGIC_NANO_NATIVE, PCAP_MAGIC_NANO_SWAPPED]
    rw [if_neg hni, h1]
    norm_num
  · simp only [PcapReaderInit, parseFileHeader, PCAP_MAGIC_NATIVE, PCAP_MAGIC_SWAPPED,
      PCAP_MAGIC_NANO_NATIVE, PCAP_MAGIC_NANO_SWAPPED]
    rw [if_neg hni, h1]
    norm_num
  · simp only [PcapReaderInit, parseFileHeader, PCAP_MAGIC_NATIVE, PCAP_MAGIC_SWAPPED,
      PCAP_MAGIC_NANO_NATIVE, PCAP_MAGIC_NANO_SWAPPED]
    rw [if_neg hni, h1]
    norm_num
  · simp only [PcapReaderInit, parseFileHeader, PCAP_MAGIC_NATIVE, PCAP_MAGIC_SWAPPED,
      PCAP_MAGIC_NANO_NATIVE, PCAP_MAGIC_NANO_SWAPPED]
    rw [if_neg hni, h1]
    norm_num
  · have hinit : PcapReaderInit s = .error (.UnsupportedMagic (field32 s 0)) := by
      simp only [PcapReaderInit, parseFileHeader, PCAP_MAGIC_NATIVE, PCAP_MAGIC_SWAPPED,
        PCAP_MAGIC_NANO_NATIVE, PCAP_MAGIC_NANO_SWAPPED]
      rw [if_neg hni, if_neg h1, if_neg h2, if_neg h3, if_neg h4]
    simp [decodePcap, hinit]

theorem claim_magic_negotiation_witness :
    24 ≤ (mkCapture false false 5 2 4 0 0 1).length ∧
    ((field32 (mkCapture false false 5 2 4 0 0 1) 0 = 0xa1b2c3d4 →
      ∃ snap, PcapReaderInit (mkCapture false false 5 2 4 0 0 1) =
        .ok (⟨false, false, snap⟩, (mkCapture false false 5 2 4 0 0 1).drop 24)) ∧
    (field32 (mkCapture false false 5 2 4 0 0 1) 0 = 0xd4c3b2a1 →
      ∃ snap, PcapReaderInit (mkCapture false false 5 2 4 0 0 1) =
        .ok (⟨true, false, snap⟩, (mkCapture false false 5 2 4 0 0 1).drop 24)) ∧
    (field32 (mkCapture false false 5 2 4 0 0 1) 0 = 0xa1b23c4d →
      ∃ snap, PcapReaderInit (mkCapture false false 5 2 4 0 0 1) =
        .ok (⟨false, true, snap⟩, (mkCapture false false 5 2 4 0 0 1).drop 24)) ∧
    (field32 (mkCapture false false 5 2 4 0 0 1) 0 = 0x4d3cb2a1 →
      ∃ snap, PcapReaderInit (mkCapture false false 5 2 4 0 0 1) =
        .ok (⟨true, true, snap⟩, (mkCapture false false 5 2 4 0 0 1).drop 24)) ∧
    (field32 (mkCapture false false 5 2 4 0 0 1) 0 ≠ 0xa1b2c3d4 →
      field32 (mkCapture false false 5 2 4 0 0 1) 0 ≠ 0xd4c3b2a1 →
      field32 (mkCapture false false 5 2 4 0 0 1) 0 ≠ 0xa1b23c4d →
      field32 (mkCapture false false 5 2 4 0 0 1) 0 ≠ 0x4d3cb2a1 →
      decodePcap (mkCapture false false 5 2 4 0 0 1) =
        .error (.UnsupportedMagic (field32 (mkCapture false false 5 2 4 0 0 1) 0)))) :=
  ⟨by decide, claim_magic_negotiation (mkCapture false false 5 2 4 0 0 1) (by decide)⟩

/-- Claim C3: every decoded record carries timestamp_ns equal to
seconds times 1000000000 plus the fractional field (nanosecond context) or
seconds times 1000000000 plus the fractional field times 1000 (microsecond
context), computed modulo 2 to the 64 as uint64_t arithmetic; in
particular microseconds with seconds 1, fraction 500000 give 1500000000
and nanoseconds with seconds 1, fraction 500 give 1000000500. -/
theorem claim_timestamp_canonicalization (sw nano : Bool) (snap : Nat) (r : RecSpec)
    (h : r.wf) (t : List Nat) :
    readRecord ⟨sw, nano, snap⟩ (encodeRec sw r ++ t) =
      some (⟨(if nano then (r.sec * 1000000000 + r.frac) % 2 ^ 64
              else (r.sec * 1000000000 + r.frac * 1000) % 2 ^ 64),
             r.len, r.caplen, r.payload⟩, t) ∧
    tsNanos false 1 500000 = 1500000000 ∧ tsNanos true 1 500 = 1000000500 := by
  refine ⟨?_, by decide, by decide⟩
  have h1 : readRecord ⟨sw, nano, snap⟩ (encodeRec sw r ++ t) =
      some (mkRecord nano r, t) := readRecord_encodeRec ⟨sw, nano, snap⟩ r h t
  rw [h1]
  simp [mkRecord, tsNanos]

theorem claim_timestamp_canonicalization_witness :
    (⟨1, 500000, 2, 3, [7, 8]⟩ : RecSpec).wf ∧
    (readRecord ⟨false, false, 9⟩ (encodeRec false ⟨1, 500000, 2, 3, [7, 8]⟩ ++ [4]) =
      some (⟨(if false
              then ((1 : Nat) * 1000000000 + 500000) % 2 ^ 64
              else ((1 : Nat) * 1000000000 + 500000 * 1000) % 2 ^ 64),
             3, 2, [7, 8]⟩, [4]) ∧
    tsNanos false 1 500000 = 1500000000 ∧ tsNanos true 1 500 = 1000000500) :=
  ⟨by decide, claim_timestamp_canonicalization false false 9 ⟨1, 500000, 2, 3, [7, 8]⟩
    (by decide) [4]⟩

/-- Claim C8: a record header declaring captured_length zero still yields a
record, with empty payload and capture_len 0, and decoding then continues
on the rest of the stream instead of treating the zero length read as end
of stream. -/
theorem claim_zero_length_capture (ctx : DecodingContext) (s : List Nat)
    (h16 : 16 ≤ s.length) (hcap : cook ctx.needs_swap (field32 s 8) = 0) :
    decodeAll ctx s =
      ⟨tsNanos ctx.is_nanosecond (cook ctx.needs_swap (field32 s 0))
          (cook ctx.needs_swap (field32 s 4)),
        cook ctx.needs_swap (field32 s 12), 0, []⟩ :: decodeAll ctx (s.drop 16) := by
  apply decodeAll_some
  simp only [readRecord]
  rw [if_neg (by omega), hcap]
  rw [if_neg (by omega)]
  simp

theorem claim_zero_length_capture_witness :
    16 ≤ (List.replicate 16 (0 : Nat)).length ∧
    cook false (field32 (List.replicate 16 (0 : Nat)) 8) = 0 ∧
    decodeAll ⟨false, false, 0⟩ (List.replicate 16 (0 : Nat)) =
      ⟨tsNanos false (cook false (field32 (List.replicate 16 (0 : Nat)) 0))
          (cook false (field32 (List.replicate 16 (0 : Nat)) 4)),
        cook false (field32 (List.replicate 16 (0 : Nat)) 12), 0, []⟩ ::
        decodeAll ⟨false, false, 0⟩ ((List.replicate 16 (0 : Nat)).drop 16) :=
  ⟨by decide, by decide,
    claim_zero_length_capture ⟨false, false, 0⟩ (List.replicate 16 0) (by decide) (by decide)⟩


/-- The buffered loop body on one encoded record: emits exactly the encoded
row; the buffer ends up holding the payload (fresh when grown, overwritten
in place otherwise). -/
theorem decodeStep_encodeRec (ctx : DecodingContext) (r : RecSpec) (h : r.wf)
    (t : List Nat) (buffer : List Nat) :
    decodeStep ctx ⟨encodeRec ctx.needs_swap r ++ t, buffer, none⟩ =
      some (mkRecord ctx.is_nanosecond r,
        ⟨t, r.payload ++ (if buffer.length < r.caplen then [] else buffer.drop r.caplen),
         none⟩) := by
  obtain ⟨hs, hf, hc, hl, hp⟩ := h
  have hassoc : encodeRec ctx.needs_swap r ++ t =
      w32 ctx.needs_swap r.sec ++ (w32 ctx.needs_swap r.frac ++
        (w32 ctx.needs_swap r.caplen ++ (w32 ctx.needs_swap r.len ++ (r.payload ++ t)))) := by
    simp [encodeRec, List.append_assoc]
  rw [hassoc]
  set s := w32 ctx.needs_swap r.sec ++ (w32 ctx.needs_swap r.frac ++
    (w32 ctx.needs_swap r.caplen ++ (w32 ctx.needs_swap r.len ++ (r.payload ++ t)))) with hsdef
  have hlen : s.length = 16 + (r.caplen + t.length) := by
    simp [hsdef, w32_length, hp]
    omega
  have f0 : cook ctx.needs_swap (field32 s 0) = r.sec := by
    rw [hsdef]
    exact cook_w32_at0 _ _ hs _
  have f4 : cook ctx.needs_swap (field32 s 4) = r.frac := by
    rw [hsdef, field32_w32_4]
    exact cook_w32_at0 _ _ hf _
  have f8 : cook ctx.needs_swap (field32 s 8) = r.caplen := by
    rw [hsdef, field32_w32_8, field32_w32_4]
    exact cook_w32_at0 _ _ hc _
  have f12 : cook ctx.needs_swap (field32 s 12) = r.len := by
    rw [hsdef, field32_w32_12, field32_w32_8, field32_w32_4]
    exact cook_w32_at0 _ _ hl _
  have hdrop : s.drop 16 = r.payload ++ t := by
    rw [hsdef, drop16_w32, drop12_w32, drop8_w32, drop4_w32]
  simp only [decodeStep]
  rw [if_neg (by omega)]
  rw [f0, f4, f8, f12, hdrop]
  simp only [growBuffer_none_oracle]
  rw [if_neg (by simp [hp])]
  rw [List.take_left' hp, List.drop_left' hp, List.take_left' hp]
  have hb : (if buffer.length < r.caplen then List.replicate r.caplen (0 : Nat)
      else buffer).drop r.caplen =
      (if buffer.length < r.caplen then [] else buffer.drop r.caplen) := by
    split_ifs <;> simp
  rw [hb]
  rfl

/-- With a never failing allocation oracle the buffered loop body breaks
exactly when the plain record reader does. -/
theorem decodeStep_none_iff (ctx : DecodingContext) (st : LoopState)
    (hal : st.allocs = none) :
    decodeStep ctx st = none ↔ readRecord ctx st.stream = none := by
  obtain ⟨s, buffer, allocs⟩ := st
  replace hal : allocs = none := hal
  subst hal
  simp only [decodeStep, readRecord, growBuffer_none_oracle]
  split_ifs <;> simp

/-- An empty pull with positive row budget means the very first iteration
broke. -/
theorem runPull_empty (ctx : DecodingContext) (st : LoopState) (n : Nat)
    (h : (runPull ctx (n + 1) st).1 = []) : decodeStep ctx st = none := by
  simp only [runPull] at h
  cases hd : decodeStep ctx st with
  | none => rfl
  | some p =>
    obtain ⟨r, st1⟩ := p
    rw [hd] at h
    simp at h


/-- Claim C2: a stream of complete records followed by a truncated fragment
(a partial record header of fewer than 16 bytes, or a record header whose
captured_length exceeds the remaining payload bytes) decodes to exactly the
complete prior records, in order, terminating cleanly with no error; the
truncated record is never produced. -/
theorem claim_truncation_tolerance (sw nano : Bool) (snap : Nat) (hsnap : snap < 2 ^ 32)
    (vmaj vmin tz sig net : Nat) (rs : List RecSpec) (hwf : ∀ r ∈ rs, r.wf)
    (t : List Nat) (ht : truncatedTail ⟨sw, nano, snap⟩ t) :
    decodePcap (mkCapture sw nano snap vmaj vmin tz sig net ++ (encodeRecs sw rs ++ t)) =
      .ok (rs.map (mkRecord nano)) := by
  have hinit := PcapReaderInit_mkCapture sw nano snap vmaj vmin tz sig net hsnap
    (encodeRecs sw rs ++ t)
  simp only [decodePcap, hinit]
  have hd : decodeAll ⟨sw, nano, snap⟩ (encodeRecs sw rs ++ t) =
      rs.map (mkRecord nano) ++ decodeAll ⟨sw, nano, snap⟩ t :=
    decodeAll_encodeRecs ⟨sw, nano, snap⟩ rs hwf t
  rw [hd, decodeAll_none _ _ (readRecord_truncatedTail _ _ ht), List.append_nil]

theorem claim_truncation_tolerance_witness :
    (5 : Nat) < 2 ^ 32 ∧
    (∀ r ∈ [(⟨0, 0, 1, 1, [5]⟩ : RecSpec)], r.wf) ∧
    truncatedTail ⟨false, false, 5⟩ [1, 2, 3] ∧
    decodePcap (mkCapture false false 5 2 4 0 0 1 ++
        (encodeRecs false [⟨0, 0, 1, 1, [5]⟩] ++ [1, 2, 3])) =
      .ok ([(⟨0, 0, 1, 1, [5]⟩ : RecSpec)].map (mkRecord false)) :=
  ⟨by decide, by decide, by decide,
    claim_truncation_tolerance false false 5 (by decide) 2 4 0 0 1 _ (by decide) _ (by decide)⟩

/-- Claim C4: a capture encoded in swapped endianness (magic stored byte
reversed, every multi byte field of the capture header and of every record
header byte reversed, payloads untouched) decodes to exactly the same
records as its native endian encoding. -/
theorem claim_endianness_equivalence (nano : Bool) (snap vmaj vmin tz sig net : Nat)
    (hsnap : snap < 2 ^ 32) (rs : List RecSpec) (hwf : ∀ r ∈ rs, r.wf) :
    decodePcap (mkCapture true nano snap vmaj vmin tz sig net ++ encodeRecs true rs) =
      decodePcap (mkCapture false nano snap vmaj vmin tz sig net ++ encodeRecs false rs) := by
  have h1 : decodePcap (mkCapture true nano snap vmaj vmin tz sig net ++
      encodeRecs true rs) = .ok (rs.map (mkRecord nano)) := by
    have hinit := PcapReaderInit_mkCapture true nano snap vmaj vmin tz sig net hsnap
      (encodeRecs true rs)
    simp only [decodePcap, hinit]
    have hd : decodeAll ⟨true, nano, snap⟩ (encodeRecs true rs ++ []) =
        rs.map (mkRecord nano) ++ decodeAll ⟨true, nano, snap⟩ [] :=
      decodeAll_encodeRecs ⟨true, nano, snap⟩ rs hwf []
    rw [List.append_nil] at hd
    rw [hd, decodeAll_none _ _ (readRecord_nil _), List.append_nil]
  have h2 : decodePcap (mkCapture false nano snap vmaj vmin tz sig net ++
      encodeRecs false rs) = .ok (rs.map (mkRecord nano)) := by
    have hinit := PcapReaderInit_mkCapture false nano snap vmaj vmin tz sig net hsnap
      (encodeRecs false rs)
    simp only [decodePcap, hinit]
    have hd : decodeAll ⟨false, nano, snap⟩ (encodeRecs false rs ++ []) =
        rs.map (mkRecord nano) ++ decodeAll ⟨false, nano, snap⟩ [] :=
      decodeAll_encodeRecs ⟨false, nano, snap⟩ rs hwf []
    rw [List.append_nil] at hd
    rw [hd, decodeAll_none _ _ (readRecord_nil _), List.append_nil]
  rw [h1, h2]

theorem claim_endianness_equivalence_witness :
    (3 : Nat) < 2 ^ 32 ∧
    (∀ r ∈ [(⟨1, 2, 1, 4, [9]⟩ : RecSpec)], r.wf) ∧
    decodePcap (mkCapture true true 3 2 4 0 0 1 ++ encodeRecs true [⟨1, 2, 1, 4, [9]⟩]) =
      decodePcap (mkCapture false true 3 2 4 0 0 1 ++ encodeRecs false [⟨1, 2, 1, 4, [9]⟩]) :=
  ⟨by decide, by decide,
    claim_endianness_equivalence true 3 2 4 0 0 1 (by decide) _ (by decide)⟩

/-- Claim C6: with a valid magic and snapshot length zero, initialization
succeeds (snaplen zero is only the initial buffer hint) and a following
record with nonzero captured_length is decoded correctly, the buffer
growing from the zero size hint to exactly that captured length. -/
theorem claim_snaplen_zero (sw nano : Bool) (vmaj vmin tz sig net : Nat) (r : RecSpec)
    (h : r.wf) (hpos : 0 < r.caplen) (t : List Nat) :
    PcapReaderInit (mkCapture sw nano 0 vmaj vmin tz sig net ++ (encodeRec sw r ++ t)) =
      .ok (⟨sw, nano, 0⟩, encodeRec sw r ++ t) ∧
    decodeStep ⟨sw, nano, 0⟩ (initLoopState ⟨sw, nano, 0⟩ (encodeRec sw r ++ t)) =
      some (mkRecord nano r, ⟨t, r.payload, none⟩) ∧
    r.payload.length = r.caplen := by
  refine ⟨PcapReaderInit_mkCapture sw nano 0 vmaj vmin tz sig net (by norm_num) _, ?_,
    h.2.2.2.2⟩
  have hstep : decodeStep ⟨sw, nano, 0⟩ (initLoopState ⟨sw, nano, 0⟩ (encodeRec sw r ++ t)) =
      some (mkRecord nano r,
        ⟨t, r.payload ++ (if (List.replicate 0 (0 : Nat)).length < r.caplen then []
              else (List.replicate 0 (0 : Nat)).drop r.caplen), none⟩) :=
    decodeStep_encodeRec ⟨sw, nano, 0⟩ r h t (List.replicate 0 0)
  rw [hstep]
  simp [hpos]

theorem claim_snaplen_zero_witness :
    (⟨0, 0, 1, 1, [171]⟩ : RecSpec).wf ∧
    0 < (⟨0, 0, 1, 1, [171]⟩ : RecSpec).caplen ∧
    (PcapReaderInit (mkCapture false false 0 2 4 0 0 1 ++
        (encodeRec false ⟨0, 0, 1, 1, [171]⟩ ++ [])) =
      .ok (⟨false, false, 0⟩, encodeRec false ⟨0, 0, 1, 1, [171]⟩ ++ []) ∧
    decodeStep ⟨false, false, 0⟩ (initLoopState ⟨false, false, 0⟩
        (encodeRec false ⟨0, 0, 1, 1, [171]⟩ ++ [])) =
      some (mkRecord false ⟨0, 0, 1, 1, [171]⟩, ⟨[], [171], none⟩) ∧
    ([171] : List Nat).length = 1) :=
  ⟨by decide, by decide,
    claim_snaplen_zero false false 2 4 0 0 1 ⟨0, 0, 1, 1, [171]⟩ (by decide) (by decide) []⟩

/-- Claim C7: across a successful call of the loop body the buffer capacity
never shrinks, becomes exactly the captured length when and only when that
exceeded the old capacity (max of the two), the emitted payload is exactly
the payload bytes of the stream (no corruption), the stream advances past
them, and the capacity right after initialization is the snaplen hint. -/
theorem claim_buffer_growth (ctx : DecodingContext) (st st' : LoopState)
    (r : PacketRecord) (h : decodeStep ctx st = some (r, st')) :
    st.buffer.length ≤ st'.buffer.length ∧
    st'.buffer.length = max st.buffer.length r.capture_len ∧
    r.payload = (st.stream.drop 16).take r.capture_len ∧
    st'.stream = (st.stream.drop 16).drop r.capture_len ∧
    ∀ (c : DecodingContext) (s : List Nat), (initLoopState c s).buffer.length = c.snaplen := by
  obtain ⟨h1, h2, h3, h4⟩ := decodeStep_spec ctx st r st' h
  exact ⟨by omega, h2, h3, h4, fun c s => by simp [initLoopState]⟩

theorem claim_buffer_growth_witness :
    decodeStep ⟨false, false, 0⟩ ⟨cxStream, [], none⟩ =
      some (⟨0, 1, 1, [171]⟩, ⟨[], [171], none⟩) ∧
    (([] : List Nat).length ≤ ([171] : List Nat).length ∧
    ([171] : List Nat).length = max ([] : List Nat).length 1 ∧
    ([171] : List Nat) = (cxStream.drop 16).take 1 ∧
    ([] : List Nat) = (cxStream.drop 16).drop 1 ∧
    ∀ (c : DecodingContext) (s : List Nat), (initLoopState c s).buffer.length = c.snaplen) :=
  ⟨by decide,
    claim_buffer_growth ⟨false, false, 0⟩ ⟨cxStream, [], none⟩ ⟨[], [171], none⟩
      ⟨0, 1, 1, [171]⟩ (by decide)⟩

/-- Claim C5 counterexample: when buffer growth fails (allocation oracle
exhausted) on the first record of a pull, the pull hands the sink an empty
batch even though a complete record is still decodable in the stream, so an
empty batch does not imply exhaustion under AllocationFailure. -/
theorem claim_empty_batch_counterexample :
    (runPull ⟨false, false, 0⟩ 2048 ⟨cxStream, [], some 0⟩).1 = [] ∧
    (readRecord ⟨false, false, 0⟩ cxStream).isSome = true := by
  exact ⟨by decide, by decide⟩

/-- Claim C5 (amended): in the absence of allocation failure, a pull with a
positive row budget hands the sink an empty batch only when no further
record is decodable from the stream; when buffer growth fails, decoding
stops at once and the batch accumulated so far is returned, and it may be
empty even though complete records remain. -/
theorem claim_empty_batch_only_at_exhaustion (ctx : DecodingContext) (st : LoopState)
    (n : Nat) (hal : st.allocs = none) (h : (runPull ctx (n + 1) st).1 = []) :
    readRecord ctx st.stream = none :=
  (decodeStep_none_iff ctx st hal).mp (runPull_empty ctx st n h)

theorem claim_empty_batch_only_at_exhaustion_witness :
    (⟨[], [], none⟩ : LoopState).allocs = none ∧
    (runPull ⟨false, false, 0⟩ 2048 ⟨[], [], none⟩).1 = [] ∧
    readRecord ⟨false, false, 0⟩ (⟨[], [], none⟩ : LoopState).stream = none :=
  ⟨by decide, by decide,
    claim_empty_batch_only_at_exhaustion ⟨false, false, 0⟩ ⟨[], [], none⟩ 2047
      (by decide) (by decide)⟩

/-- Claim C10: the input path selects standard input exactly when it is the
full string dash or the full string /dev/stdin (both strncmp bounds cover
the terminating NUL, so extensions such as /dev/stdin2 are ordinary
files), and a stdin backed reader does not close its stream handle on
destruction. -/
theorem claim_stdin_detection (f : List Nat) (hnul : ∀ b ∈ f, b ≠ 0) :
    (pcapIsStdin f = true ↔ (f = devStdinBytes ∨ f = dashBytes)) ∧
    (pcapIsStdin f = true → initDataFreeClosesStream (pcapIsStdin f) = false) := by
  constructor
  · unfold pcapIsStdin
    rw [Bool.or_eq_true,
      strncmpEqZero_full devStdinBytes (by decide) f 11 hnul (by decide),
      strncmpEqZero_full dashBytes (by decide) f 2 hnul (by decide)]
  · intro h
    rw [h]
    rfl

theorem claim_stdin_detection_witness :
    (∀ b ∈ dashBytes, b ≠ 0) ∧
    ((pcapIsStdin dashBytes = true ↔
        (dashBytes = devStdinBytes ∨ dashBytes = dashBytes)) ∧
    (pcapIsStdin dashBytes = true →
      initDataFreeClosesStream (pcapIsStdin dashBytes) = false)) :=
  ⟨by decide, claim_stdin_detection dashBytes (by decide)⟩

end Pcap
